import Mathlib

/-!
Verification development for the playpi repository.

Strings from the Python source are embedded as `List Char`.  Python string
primitives used by the code (`str.strip`, `str.split("\n")`, `"\n".join`,
truthiness of optional strings) are embedded below; stateful polling loops
are embedded as well-founded recursive functions over a discrete clock, with
the page state supplied by environment functions `Nat → _` (time → observation).
-/

namespace PlayPi

/-- Embedding of Python `str.strip()` (used in `html_to_markdown`,
`src/playpi/html.py` lines 35 and 40, and in `_wait_for_sources_button`):
drop whitespace from both ends.  Whitespace is modelled by `Char.isWhitespace`. -/
def pyStrip (s : List Char) : List Char :=
  ((s.dropWhile Char.isWhitespace).reverse.dropWhile Char.isWhitespace).reverse

/-- Helper for `splitNl`: prepend a character to the first chunk. -/
def consHead (c : Char) : List (List Char) → List (List Char)
  | [] => [[c]]
  | l :: ls => (c :: l) :: ls

/-- Embedding of Python `str.split("\n")` (`html.py` line 30):
`""` splits to `[""]`, separators delimit possibly empty chunks. -/
def splitNl : List Char → List (List Char)
  | [] => [[]]
  | c :: rest =>
    if c = '\n' then [] :: splitNl rest
    else consHead c (splitNl rest)

/-- Embedding of Python `sep.join(chunks)`. -/
def joinSep (sep : List Char) : List (List Char) → List Char
  | [] => []
  | [l] => l
  | l :: ls => l ++ sep ++ joinSep sep ls

/-- Embedding of the line filter of `html_to_markdown` (`html.py` lines 31-38):
`if line or (cleaned_lines and cleaned_lines[-1]): cleaned_lines.append(line)`.
The boolean argument tracks whether the last appended line was non-empty
(initially the list is empty, so the flag starts `false`). -/
def keepLines : List (List Char) → Bool → List (List Char)
  | [], _ => []
  | l :: ls, lastNonempty =>
    if l ≠ [] then l :: keepLines ls true
    else if lastNonempty then l :: keepLines ls false
    else keepLines ls false

/-- Embedding of the cleanup phase of `html_to_markdown`
(`src/playpi/html.py` lines 29-40): split into lines, strip each line, drop an
empty line unless the previously kept line was non-empty, join with newlines
and strip the result. -/
def cleanupMarkdown (markdown : List Char) : List Char :=
  pyStrip (joinSep ['\n'] (keepLines ((splitNl markdown).map pyStrip) false))

/-- No two adjacent chunks are both empty. -/
def chunksOk : List (List Char) → Bool
  | [] => true
  | [_] => true
  | a :: b :: rest => (!(a.isEmpty && b.isEmpty)) && chunksOk (b :: rest)

/-- Modelled from the spec: the markup-to-text conversion engine that
`html_to_markdown` delegates to (the third-party `html2text.HTML2Text.handle`
called at `src/playpi/html.py` line 27) is not part of this repository, so its
input and behaviour are modelled from the conversion rules of spec section 4.4.
The underlying HTML parser reports literal text and entity references
separately, so the body of a code block is a sequence of atoms: literal
characters or recognised entity references. -/
inductive CodeAtom
  | lit (c : Char)
  | entLt
  | entGt
  | entAmp
deriving DecidableEq

/-- Modelled from the spec: per section 4.4, HTML entities inside code/pre
blocks are unescaped literally, not re-escaped. -/
def renderAtom : CodeAtom → List Char
  | .lit c => [c]
  | .entLt => ['<']
  | .entGt => ['>']
  | .entAmp => ['&']

/-- Modelled from the spec: block-level structure of a parsed HTML document as
seen by the conversion engine. -/
inductive MarkupBlock
  | para (s : List Char)
  | heading (level : Nat) (s : List Char)
  | preCode (content : List CodeAtom)
deriving DecidableEq

/-- Modelled from the spec: rendering of one block — headings map to heading
markers of matching level, paragraphs to their text, code and preformatted
blocks preserve literal content with embedded entities unescaped. -/
def renderBlock : MarkupBlock → List Char
  | .para s => s
  | .heading n s => List.replicate n '#' ++ ' ' :: s
  | .preCode content => (content.map renderAtom).flatten

/-- Modelled from the spec: the conversion engine output, blocks separated by a
blank line. -/
def handleDoc (doc : List MarkupBlock) : List Char :=
  joinSep ['\n', '\n'] (doc.map renderBlock)

/-- Embedding of `html_to_markdown` (`src/playpi/html.py` lines 9-40): the
engine conversion followed by the line cleanup of lines 29-40. -/
def htmlToMarkdown (doc : List MarkupBlock) : List Char :=
  cleanupMarkdown (handleDoc doc)

/-- The escaped form `&lt;div&gt;` as code-block atoms. -/
def escDiv : List CodeAtom :=
  [CodeAtom.entLt, CodeAtom.lit 'd', CodeAtom.lit 'i', CodeAtom.lit 'v', CodeAtom.entGt]

/-- The literal text `<div>`. -/
def divChars : List Char := ['<', 'd', 'i', 'v', '>']

/-- Concrete document used to witness the code-block claim. -/
def exDocC7 : List MarkupBlock :=
  [MarkupBlock.para ['H', 'i'],
   MarkupBlock.preCode (CodeAtom.lit 'x' :: CodeAtom.lit '=' :: escDiv)]

/-! ### Completion detection (`src/playpi/providers/google/gemini.py`) -/

/-- Embedding of `RESEARCH_CONTENT_MIN_LENGTH` (`gemini.py` line 28). -/
def RESEARCH_CONTENT_MIN_LENGTH : Nat := 50000

/-- Result of `_wait_for_completion`: a normal return at a given time, or a
`PlayPiTimeoutError` raised at a given time. -/
inductive WaitResult
  | completed (t : Nat)
  | timedOut (t : Nat)
deriving DecidableEq

/-- Embedding of the polling loop of `_wait_for_completion`
(`gemini.py` lines 991-1032).  Time is in seconds; `ind t` tells whether any
completion indicator selector is visible at time `t`.  Each iteration checks
the indicators and, when none is visible, sleeps 5 seconds (line 1032); the
loop runs while the elapsed time is below `timeout`.  The 30-second progress
reports inside the loop only log and do not affect timing.  Returns
`Sum.inl t` when an indicator is detected at time `t`, and `Sum.inr t` when
the loop exits by timeout at time `t`. -/
def drLoop (ind : Nat → Bool) (start timeout : Nat) (elapsed : Nat) : Nat ⊕ Nat :=
  if h : elapsed < timeout then
    if ind (start + elapsed) then Sum.inl (start + elapsed)
    else drLoop ind start timeout (elapsed + 5)
  else Sum.inr (start + elapsed)
termination_by timeout - elapsed
decreasing_by omega

/-- Embedding of `_wait_for_completion` (`gemini.py` lines 978-1058): run the
polling loop; if no indicator fired before the timeout, declare completion
anyway when the page content length (`clen` at the loop exit time) exceeds
`RESEARCH_CONTENT_MIN_LENGTH` — a single measurement, lines 1034-1042.  On
completion, sleep 5 more seconds for the final render and return (line 1047);
otherwise raise `PlayPiTimeoutError` (lines 1048-1050). -/
def waitForCompletion (ind : Nat → Bool) (clen : Nat → Nat)
    (start timeout : Nat) : WaitResult :=
  match drLoop ind start timeout 0 with
  | Sum.inl t => WaitResult.completed (t + 5)
  | Sum.inr t =>
    if RESEARCH_CONTENT_MIN_LENGTH < clen t then WaitResult.completed (t + 5)
    else WaitResult.timedOut t

/-- Outcome of `_wait_for_sources_button`: which signal ended the wait.  On
timeout the function logs and returns normally (lines 969-975), it does not
raise. -/
inductive SourcesWaitOutcome
  | indicatorFound (t : Nat)
  | contentStable (t : Nat)
  | timedOutProceed (t : Nat)
deriving DecidableEq

/-- Embedding of the polling loop of `_wait_for_sources_button`
(`gemini.py` lines 917-975).  Time is counted in half-second units, so the
`check_interval = 0.5` sleep advances the clock by 1 and the 2-second
stability re-check delay (line 954) advances it by 4; `timeout2` is the
timeout in the same units (twice the timeout in seconds).  `ind t` tells
whether any completion selector matches at time `t`; `content t` is the text
content of the first `message-content` element at time `t` (`none` when the
element is absent or has no text).  When the stripped content text is longer
than 50 characters the loop re-reads the text after the 2-second delay and
reports completion only when it is unchanged; otherwise it falls through to
the check-interval sleep and polls again. -/
def srcLoop (ind : Nat → Bool) (content : Nat → Option (List Char))
    (start timeout2 : Nat) (elapsed : Nat) : SourcesWaitOutcome :=
  if h : elapsed < timeout2 then
    if ind (start + elapsed) then SourcesWaitOutcome.indicatorFound (start + elapsed)
    else
      match content (start + elapsed) with
      | some txt =>
        if 50 < (pyStrip txt).length then
          match content (start + elapsed + 4) with
          | some txt2 =>
            if txt2 = txt then SourcesWaitOutcome.contentStable (start + elapsed + 4)
            else srcLoop ind content start timeout2 (elapsed + 5)
          | none => srcLoop ind content start timeout2 (elapsed + 5)
        else srcLoop ind content start timeout2 (elapsed + 1)
      | none => srcLoop ind content start timeout2 (elapsed + 1)
  else SourcesWaitOutcome.timedOutProceed (start + elapsed)
termination_by timeout2 - elapsed
decreasing_by all_goals omega

/-- Content text used in the stability counterexample: strictly growing, so no
two reads ever observe the same text. -/
def exContent (t : Nat) : List Char := List.replicate (50001 + t) 'a'

/-! ### Authentication wait (`src/playpi/providers/google/auth.py`) -/

/-- Embedding of the wait loop of `ensure_authenticated`
(`auth.py` lines 28-54).  Each iteration waits for the page load state for up
to 5 seconds (`loadWait t` is the duration of that wait at iteration start
time `t`, capped at 5 by the 5000 ms timeout), then probes for the chat
textbox (`chat`); on success it returns the current time; otherwise, when the
current time is strictly past the login deadline, it raises
`AuthenticationError` (`Except.error` carrying the raise time); otherwise it
sleeps 1 second and repeats. -/
def authLoop (chat : Nat → Bool) (loadWait : Nat → Nat) (deadline : Nat)
    (t : Nat) : Except Nat Nat :=
  if chat (t + min (loadWait t) 5) then Except.ok (t + min (loadWait t) 5)
  else if h : deadline < t + min (loadWait t) 5 then
    Except.error (t + min (loadWait t) 5)
  else authLoop chat loadWait deadline (t + min (loadWait t) 5 + 1)
termination_by deadline + 1 - t
decreasing_by omega

/-- Embedding of `ensure_authenticated` (`auth.py` lines 13-54).
`forceFailure` models the `PLAYPI_FORCE_AUTH_FAILURE` environment override
(lines 21-23); the login deadline is the start time plus `min timeout 60`
(line 25).  `Except.error t` models `AuthenticationError` raised at time
`t`. -/
def ensureAuthenticated (forceFailure : Bool) (chat : Nat → Bool)
    (loadWait : Nat → Nat) (timeout start : Nat) : Except Nat Nat :=
  if forceFailure then Except.error start
  else authLoop chat loadWait (start + min timeout 60) start

/-! ### Batch runs and prompt handling (`gemini.py`, `cli_helpers.py`) -/

/-- Error kinds a single research run can raise (`gemini.py` lines 78-84 wrap
everything into `PlayPiTimeoutError` or `ProviderError`;
`ensure_authenticated` raises `AuthenticationError`): never a `ValueError`. -/
inductive RunErr
  | timeoutErr
  | providerErr
  | authErr
deriving DecidableEq

/-- Error kinds of the prompt-handling entry points: `ValueError` for a
malformed request, or a propagated run failure. -/
inductive GErr
  | valueError
  | runFailure (e : RunErr)
deriving DecidableEq

/-- Per-item outcome: the result text, or the output path when the result was
written to a file. -/
inductive TaskOutcome
  | text (s : List Char)
  | path (p : List Char)
deriving DecidableEq

instance : Inhabited TaskOutcome := ⟨TaskOutcome.text []⟩

/-- One entry of the `config` list of `google_gemini_deep_research_multi`
(`gemini.py` lines 120-122). -/
structure TaskConfig where
  prompt : Option (List Char)
  promptPath : Option (List Char)
  outputPath : Option (List Char)
deriving DecidableEq

/-- Python truthiness of an optional string: `None` and the empty string are
falsy. -/
def pyTruthy : Option (List Char) → Bool
  | none => false
  | some s => !s.isEmpty

/-- Embedding of the prompt composition appearing verbatim both in
`google_gemini_deep_research_full` (`gemini.py` lines 94-102) and in the
per-task closure of `google_gemini_deep_research_multi` (lines 124-132):
`fs` maps a file path to its contents. -/
def composePrompt (fs : List Char → List Char)
    (prompt promptPath : Option (List Char)) : Except GErr (List Char) :=
  if pyTruthy promptPath then
    let fileContent := fs (promptPath.getD [])
    if pyTruthy prompt then Except.ok (fileContent ++ '\n' :: prompt.getD [])
    else Except.ok fileContent
  else if pyTruthy prompt then Except.ok (prompt.getD [])
  else Except.error GErr.valueError

/-- Embedding of the shared tail of the prompt entry points (`gemini.py`
lines 104-110 and 134-140, `cli_helpers.py` lines 69-75, textually duplicated
in the source): propagate a run failure, otherwise return the result text, or
write it and return the output destination when one is configured. -/
def finishTask : Except RunErr (List Char) → Option (List Char) →
    Except GErr TaskOutcome
  | Except.error e, _ => Except.error (GErr.runFailure e)
  | Except.ok result, outputDest =>
    if pyTruthy outputDest then Except.ok (TaskOutcome.path (outputDest.getD []))
    else Except.ok (TaskOutcome.text result)

/-- Embedding of `google_gemini_deep_research_full` (`gemini.py` lines
87-110): compose the prompt, run the research (`research` models
`google_gemini_deep_research`, which raises only run failures), then either
return the text or write it and return the output path. -/
def googleGeminiDeepResearchFull (fs : List Char → List Char)
    (research : List Char → Except RunErr (List Char))
    (prompt promptPath outputPath : Option (List Char)) :
    Except GErr TaskOutcome :=
  match composePrompt fs prompt promptPath with
  | Except.error e => Except.error e
  | Except.ok fullPrompt => finishTask (research fullPrompt) outputPath

/-- Embedding of the per-task closure `run_task` of
`google_gemini_deep_research_multi` (`gemini.py` lines 117-140); `research`
models `_google_gemini_deep_research_on_page` on the page the task opened. -/
def runTask (fs : List Char → List Char)
    (research : List Char → Except RunErr (List Char)) (cfg : TaskConfig) :
    Except GErr TaskOutcome :=
  match composePrompt fs cfg.prompt cfg.promptPath with
  | Except.error e => Except.error e
  | Except.ok fullPrompt => finishTask (research fullPrompt) cfg.outputPath

/-- Embedding of the `asyncio.gather` call over the task list
(`gemini.py` lines 146-147), with `return_exceptions` left at its default
`False`: `order` is the order in which the tasks finish; each finished task
stores its result in the slot of its input position; the first exception in
completion order propagates to the caller, otherwise the slots are returned
in input order. -/
def gatherRun {n : Nat} (res : Fin n → Except GErr TaskOutcome) :
    List (Fin n) → Except GErr (List TaskOutcome)
  | [] => Except.ok (List.ofFn fun i =>
      match res i with
      | Except.ok v => v
      | Except.error _ => default)
  | i :: rest =>
    match res i with
    | Except.error e => Except.error e
    | Except.ok _ => gatherRun res rest

/-- Embedding of `google_gemini_deep_research_multi` (`gemini.py` lines
113-147): run every configured task on its own page of the shared session and
gather the outcomes; `order` is the completion order of the tasks. -/
def deepResearchMulti (fs : List Char → List Char)
    (research : List Char → Except RunErr (List Char)) (cfgs : List TaskConfig)
    (order : List (Fin cfgs.length)) : Except GErr (List TaskOutcome) :=
  gatherRun (fun i => runTask fs research (cfgs.get i)) order

/-- Embedding of Python `str.rstrip()`. -/
def pyRstrip (s : List Char) : List Char :=
  (s.reverse.dropWhile Char.isWhitespace).reverse

/-- Embedding of `gemi_command`
(`src/playpi/providers/google/cli_helpers.py` lines 48-75): build the parts
list from the prompt file (its contents right-stripped) and the inline
prompt, raise `ValueError` when the parts list is empty, join the truthy
parts with a newline, run the prompt through the deep-think provider or the
plain provider, and return the text or write it to the output file. -/
def gemiCommand (fsRead : List Char → List Char)
    (ask deepThink : List Char → Except RunErr (List Char))
    (filePromptArg promptArg : Option (List Char)) (deep : Bool)
    (outputFile : Option (List Char)) : Except GErr TaskOutcome :=
  let parts : List (List Char) :=
    (if pyTruthy filePromptArg then [pyRstrip (fsRead (filePromptArg.getD []))] else [])
      ++ (if pyTruthy promptArg then [promptArg.getD []] else [])
  if parts.isEmpty then Except.error GErr.valueError
  else
    finishTask
      ((if deep then deepThink else ask) (joinSep ['\n'] (parts.filter (fun p => !p.isEmpty))))
      outputFile

/-- Concrete environment for counterexamples and witnesses: the file system
returns empty contents. -/
def exFs : List Char → List Char := fun _ => []

/-- Concrete research function: the task with prompt `"a"` raises its
per-task timeout, every other prompt succeeds. -/
def exResearch : List Char → Except RunErr (List Char) := fun p =>
  if p = ['a'] then Except.error RunErr.timeoutErr else Except.ok ['R']

/-- Concrete research function that always succeeds. -/
def exResearchOk : List Char → Except RunErr (List Char) := fun _ => Except.ok ['R']

/-- Batch configs for the failure-isolation counterexample: task 0 times out,
task 1 succeeds. -/
def exCfgs : List TaskConfig :=
  [{ prompt := some ['a'], promptPath := none, outputPath := none },
   { prompt := some ['b'], promptPath := none, outputPath := none }]

/-! ### Concurrency cap of the batch run (`gemini.py` lines 113-147) -/

/-- Phase of one task of `google_gemini_deep_research_multi` with respect to
the concurrency semaphore (`async with semaphore`, lines 115-118): not yet
acquired, holding the semaphore (page work in flight), or finished and
released. -/
inductive TaskPhase
  | pending
  | running
  | finished
deriving DecidableEq

/-- State of a batch run: the semaphore counter (`asyncio.Semaphore(3)`,
line 115) and each task's phase. -/
structure MultiState where
  sem : Nat
  phases : List TaskPhase
deriving DecidableEq

/-- Number of tasks currently holding the semaphore (in flight past it). -/
def countRunning (ps : List TaskPhase) : Nat :=
  ps.countP (fun p => p == TaskPhase.running)

/-- Initial state of a batch of `n` tasks. -/
def initMulti (n : Nat) : MultiState :=
  { sem := 3, phases := List.replicate n TaskPhase.pending }

/-- Interleaving steps of the batch: `async with semaphore` acquires the
semaphore only when its counter is positive (a task whose counter is zero
stays blocked), and the semaphore is released when the task body finishes. -/
inductive MultiStep : MultiState → MultiState → Prop
  | acquire (s : MultiState) (i : Nat) (hi : i < s.phases.length)
      (hp : s.phases.get ⟨i, hi⟩ = TaskPhase.pending) (hs : 0 < s.sem) :
      MultiStep s { sem := s.sem - 1, phases := s.phases.set i TaskPhase.running }
  | release (s : MultiState) (i : Nat) (hi : i < s.phases.length)
      (hp : s.phases.get ⟨i, hi⟩ = TaskPhase.running) :
      MultiStep s { sem := s.sem + 1, phases := s.phases.set i TaskPhase.finished }

/-- States reachable by the batch of `n` tasks. -/
inductive ReachableMulti (n : Nat) : MultiState → Prop
  | init : ReachableMulti n (initMulti n)
  | step {s s' : MultiState} :
      ReachableMulti n s → MultiStep s s' → ReachableMulti n s'

/-! ### Session lifecycle (`src/playpi/session.py`) -/

/-- State of a `PlayPiSession` (`session.py` lines 21-31): the resources
`_playwright`, `_browser`, `_context`, `_page`, each `None` until assigned.
Resource identities are modelled as numbers. -/
structure SessionState where
  pw : Option Nat
  browser : Option Nat
  ctx : Option Nat
  page : Option Nat
deriving DecidableEq

/-- `PlayPiSession.__init__` (`session.py` lines 21-31): every resource is
`None`. -/
def sessionInit : SessionState :=
  { pw := none, browser := none, ctx := none, page := none }

/-- Embedding of `PlayPiSession.get_page` (`session.py` lines 68-80): raises
`SessionError` (`Except.error ()`) exactly when `_page` is `None`. -/
def get_page (s : SessionState) : Except Unit Nat :=
  match s.page with
  | none => Except.error ()
  | some p => Except.ok p

/-- Embedding of `PlayPiSession.close` (`session.py` lines 105-134): close
and reset each held resource in turn; never raises. -/
def sessionClose (s : SessionState) : SessionState :=
  let s1 := { s with page := none }
  let s2 := { s1 with ctx := none }
  let s3 := { s2 with browser := none }
  { s3 with pw := none }

/-- Embedding of `PlayPiSession.start` (`session.py` lines 42-66): an early
return when already started (lines 44-46); otherwise the four resources are
acquired in order (`launch = some ids`), or an exception interrupts the
sequence (`launch = none`), in which case `close()` runs on the partial state
and `BrowserError` is raised — the boolean result is `false`. -/
def sessionStart (s : SessionState) (launch : Option (Nat × Nat × Nat × Nat)) :
    SessionState × Bool :=
  if s.pw.isSome then (s, true)
  else
    match launch with
    | some ids =>
      ({ pw := some ids.1, browser := some ids.2.1, ctx := some ids.2.2.1,
         page := some ids.2.2.2 }, true)
    | none => (sessionClose s, false)

/-! ### Generic list lemmas used for the `html_to_markdown` claims -/

theorem infix_of_sfx {l₁ l₂ : List Char} (h : l₁ <:+ l₂) : l₁ <:+: l₂ := h.isInfix

theorem infix_of_pfx {l₁ l₂ : List Char} (h : l₁ <+: l₂) : l₁ <:+: l₂ := h.isInfix

theorem infix_subset {l₁ l₂ : List Char} (h : l₁ <:+: l₂) {c : Char} (hc : c ∈ l₁) :
    c ∈ l₂ := h.subset hc

theorem rev_infix_iff {l₁ l₂ : List Char} : l₁.reverse <:+: l₂.reverse ↔ l₁ <:+: l₂ :=
  List.reverse_infix

theorem infix_ext_left {l₁ l₂ : List Char} (x : List Char) (h : l₁ <:+: l₂) :
    l₁ <:+: x ++ l₂ := by
  obtain ⟨a, b, rfl⟩ := h
  exact ⟨x ++ a, b, by simp⟩

theorem infix_ext_right {l₁ l₂ : List Char} (x : List Char) (h : l₁ <:+: l₂) :
    l₁ <:+: l₂ ++ x := by
  obtain ⟨a, b, rfl⟩ := h
  exact ⟨a, b ++ x, by simp⟩

theorem dropWhile_head_false (p : Char → Bool) (l : List Char) {c : Char}
    (h : (l.dropWhile p).head? = some c) : p c = false := by
  have hd := List.head?_dropWhile_not p l
  rw [h] at hd
  exact hd

theorem consHead_ne_nil (c : Char) (ls : List (List Char)) : consHead c ls ≠ [] := by
  cases ls <;> simp [consHead]

theorem splitNl_ne_nil (s : List Char) : splitNl s ≠ [] := by
  cases s with
  | nil => simp [splitNl]
  | cons c rest =>
    rw [splitNl]
    split
    · simp
    · exact consHead_ne_nil c _

theorem no_nl_of_mem_splitNl {l : List Char} {s : List Char}
    (h : l ∈ splitNl s) : '\n' ∉ l := by
  induction s generalizing l with
  | nil =>
    simp [splitNl] at h
    simp [h]
  | cons c rest ih =>
    rw [splitNl] at h
    by_cases hc : c = '\n'
    · rw [if_pos hc] at h
      rw [List.mem_cons] at h
      rcases h with h | h
      · simp [h]
      · exact ih h
    · rw [if_neg hc] at h
      rcases hrest : splitNl rest with _ | ⟨l₀, ls₀⟩
      · exact absurd hrest (splitNl_ne_nil rest)
      · rw [hrest] at h
        rw [consHead, List.mem_cons] at h
        rcases h with h | h
        · subst h
          intro hmem
          rcases List.mem_cons.mp hmem with h | h
          · exact hc h.symm
          · exact ih (hrest ▸ List.mem_cons_self l₀ ls₀) h
        · exact ih (hrest ▸ List.mem_cons_of_mem l₀ h)

theorem pyStrip_infix_self (s : List Char) : pyStrip s <:+: s := by
  unfold pyStrip
  have h₁ : (s.dropWhile Char.isWhitespace) <:+ s := List.dropWhile_suffix _
  have h₂ : ((s.dropWhile Char.isWhitespace).reverse.dropWhile Char.isWhitespace)
      <:+ (s.dropWhile Char.isWhitespace).reverse := List.dropWhile_suffix _
  have h₃ := infix_of_sfx h₂
  rw [show (s.dropWhile Char.isWhitespace).reverse
      = (s.dropWhile Char.isWhitespace).reverse from rfl] at h₃
  have h₄ : ((s.dropWhile Char.isWhitespace).reverse.dropWhile Char.isWhitespace).reverse
      <:+: (s.dropWhile Char.isWhitespace) := by
    have := rev_infix_iff.mpr h₃
    simpa using this
  exact h₄.trans (infix_of_sfx h₁)

theorem no_nl_pyStrip {s : List Char} (h : '\n' ∉ s) : '\n' ∉ pyStrip s :=
  fun hc => h (infix_subset (pyStrip_infix_self s) hc)

theorem pyStrip_head {s : List Char} {c : Char}
    (h : (pyStrip s).head? = some c) : c.isWhitespace = false := by
  unfold pyStrip at h
  set Y := s.dropWhile Char.isWhitespace with hY
  set X := Y.reverse.dropWhile Char.isWhitespace with hX
  rw [List.head?_reverse] at h
  have hXne : X ≠ [] := by
    intro hnil
    rw [hnil] at h
    simp at h
  have hsfx : X <:+ Y.reverse := hX ▸ List.dropWhile_suffix _
  obtain ⟨a, ha⟩ := hsfx
  have : Y.reverse.getLast? = X.getLast? := by
    rw [← ha]
    exact List.getLast?_append_of_ne_nil a hXne
  rw [← this, List.getLast?_reverse] at h
  exact dropWhile_head_false _ s h

theorem pyStrip_last {s : List Char} {c : Char}
    (h : (pyStrip s).getLast? = some c) : c.isWhitespace = false := by
  unfold pyStrip at h
  rw [List.getLast?_reverse] at h
  exact dropWhile_head_false _ _ h

theorem pfx_append_cases {pat x y : List Char} (h : pat <+: x ++ y) :
    pat <+: x ∨ ∃ q, pat = x ++ q ∧ q <+: y := by
  induction x generalizing pat with
  | nil => exact Or.inr ⟨pat, by simp, by simpa using h⟩
  | cons c x' ih =>
    cases pat with
    | nil => exact Or.inl (List.nil_prefix)
    | cons p ps =>
      rw [List.cons_append] at h
      obtain ⟨rfl, hps⟩ := List.cons_prefix_cons.mp h
      rcases ih hps with h1 | ⟨q, rfl, hq⟩
      · exact Or.inl (List.cons_prefix_cons.mpr ⟨rfl, h1⟩)
      · exact Or.inr ⟨q, by simp, hq⟩

theorem infix_append_cases {pat x y : List Char} (h : pat <:+: x ++ y) :
    pat <:+: x ∨ pat <:+: y ∨
      ∃ p q, pat = p ++ q ∧ p ≠ [] ∧ q ≠ [] ∧ p <:+ x ∧ q <+: y := by
  induction x generalizing pat with
  | nil => exact Or.inr (Or.inl (by simpa using h))
  | cons c x' ih =>
    rw [List.cons_append] at h
    rcases List.infix_cons_iff.mp h with hpre | hinf
    · have hpre' : pat <+: (c :: x') ++ y := by simpa using hpre
      rcases pfx_append_cases hpre' with h1 | ⟨q, rfl, hq⟩
      · exact Or.inl (infix_of_pfx h1)
      · by_cases hqe : q = []
        · subst hqe
          exact Or.inl (by simp [List.infix_rfl])
        · exact Or.inr (Or.inr ⟨c :: x', q, by simp, by simp, hqe, List.suffix_rfl, hq⟩)
    · rcases ih hinf with h1 | h2 | ⟨p, q, rfl, hpne, hqne, hpsfx, hqpre⟩
      · exact Or.inl (infix_ext_left [c] h1)
      · exact Or.inr (Or.inl h2)
      · exact Or.inr (Or.inr
          ⟨p, q, rfl, hpne, hqne, hpsfx.trans (List.suffix_cons c x'), hqpre⟩)

theorem pfx_splitNl_head {xs : List Char} :
    ∀ {s : List Char}, '\n' ∉ xs → xs <+: s →
      ∃ l₀ ls₀, splitNl s = l₀ :: ls₀ ∧ xs <+: l₀ := by
  induction xs with
  | nil =>
    intro s _ _
    rcases hs : splitNl s with _ | ⟨l₀, ls₀⟩
    · exact absurd hs (splitNl_ne_nil s)
    · exact ⟨l₀, ls₀, rfl, List.nil_prefix⟩
  | cons x xs' ih =>
    intro s hnl hpfx
    obtain ⟨r, rfl⟩ := hpfx
    have hx : x ≠ '\n' := fun hc => hnl (hc ▸ List.mem_cons_self x xs')
    have hnl' : '\n' ∉ xs' := fun hc => hnl (List.mem_cons_of_mem x hc)
    rw [List.cons_append, splitNl, if_neg hx]
    obtain ⟨l₀, ls₀, heq, hp⟩ := ih hnl' (List.prefix_append xs' r)
    rw [heq, consHead]
    exact ⟨x :: l₀, ls₀, rfl, List.cons_prefix_cons.mpr ⟨rfl, hp⟩⟩

theorem infix_mem_splitNl {pat s : List Char} (hnl : '\n' ∉ pat)
    (h : pat <:+: s) : ∃ l ∈ splitNl s, pat <:+: l := by
  obtain ⟨a, b, rfl⟩ := h
  induction a with
  | nil =>
    obtain ⟨l₀, ls₀, heq, hp⟩ := pfx_splitNl_head hnl (List.prefix_append pat b)
    refine ⟨l₀, ?_, infix_of_pfx hp⟩
    rw [show [] ++ pat ++ b = pat ++ b by simp, heq]
    exact List.mem_cons_self l₀ ls₀
  | cons c a' ih =>
    obtain ⟨l, hl, hp⟩ := ih
    by_cases hc : c = '\n'
    · refine ⟨l, ?_, hp⟩
      rw [show c :: a' ++ pat ++ b = c :: (a' ++ pat ++ b) by simp, splitNl, if_pos hc]
      exact List.mem_cons_of_mem _ hl
    · rw [show c :: a' ++ pat ++ b = c :: (a' ++ pat ++ b) by simp, splitNl, if_neg hc]
      rcases heq : splitNl (a' ++ pat ++ b) with _ | ⟨l₀, ls₀⟩
      · exact absurd heq (splitNl_ne_nil _)
      · rw [heq] at hl
        rw [consHead]
        rcases List.mem_cons.mp hl with rfl | hl'
        · exact ⟨c :: l, List.mem_cons_self _ _, infix_ext_left [c] hp⟩
        · exact ⟨l, List.mem_cons_of_mem _ hl', hp⟩

theorem infix_dropWhile {pat l : List Char} {p : Char → Bool} (hne : pat ≠ [])
    (hp : ∀ c ∈ pat, p c = false) (h : pat <:+: l) : pat <:+: l.dropWhile p := by
  induction l with
  | nil =>
    rw [List.infix_nil] at h
    exact absurd h hne
  | cons c t ih =>
    by_cases hc : p c = true
    · rw [List.dropWhile_cons, if_pos hc]
      rcases List.infix_cons_iff.mp h with hpre | hinf
      · cases pat with
        | nil => exact absurd rfl hne
        | cons x xs =>
          obtain ⟨rfl, _⟩ := List.cons_prefix_cons.mp hpre
          have hx : p x = false := hp x (List.mem_cons_self x xs)
          rw [hx] at hc
          exact absurd hc (by simp)
      · exact ih hinf
    · rw [List.dropWhile_cons, if_neg hc]
      exact h

theorem infix_pyStrip {pat s : List Char} (hne : pat ≠ [])
    (hws : ∀ c ∈ pat, c.isWhitespace = false) (h : pat <:+: s) :
    pat <:+: pyStrip s := by
  unfold pyStrip
  have h₁ := infix_dropWhile hne hws h
  have h₂ : pat.reverse <:+: (s.dropWhile Char.isWhitespace).reverse :=
    rev_infix_iff.mpr h₁
  have hne' : pat.reverse ≠ [] := by simpa using hne
  have hws' : ∀ c ∈ pat.reverse, c.isWhitespace = false := fun c hc =>
    hws c (List.mem_reverse.mp hc)
  have h₃ := infix_dropWhile hne' hws' h₂
  have h₄ : pat.reverse <:+:
      (((s.dropWhile Char.isWhitespace).reverse.dropWhile Char.isWhitespace).reverse).reverse := by
    simpa using h₃
  exact rev_infix_iff.mp h₄

theorem mem_keepLines {l : List Char} :
    ∀ (ls : List (List Char)) (b : Bool), l ∈ ls → l ≠ [] → l ∈ keepLines ls b := by
  intro ls
  induction ls with
  | nil => intro b h _; simp at h
  | cons x xs ih =>
    intro b h hne
    rw [List.mem_cons] at h
    rw [keepLines]
    rcases h with rfl | h
    · rw [if_pos hne]
      exact List.mem_cons_self _ _
    · by_cases hx : x ≠ []
      · rw [if_pos hx]
        exact List.mem_cons_of_mem _ (ih true h hne)
      · rw [if_neg hx]
        by_cases hb : b
        · rw [if_pos hb]
          exact List.mem_cons_of_mem _ (ih false h hne)
        · rw [if_neg hb]
          exact ih false h hne

theorem keepLines_subset {l : List Char} :
    ∀ (ls : List (List Char)) (b : Bool), l ∈ keepLines ls b → l ∈ ls := by
  intro ls
  induction ls with
  | nil => intro b h; simp [keepLines] at h
  | cons x xs ih =>
    intro b h
    rw [keepLines] at h
    by_cases hx : x ≠ []
    · rw [if_pos hx] at h
      rcases List.mem_cons.mp h with rfl | h'
      · exact List.mem_cons_self _ _
      · exact List.mem_cons_of_mem _ (ih true h')
    · rw [if_neg hx] at h
      by_cases hb : b
      · rw [if_pos hb] at h
        rcases List.mem_cons.mp h with rfl | h'
        · exact List.mem_cons_self _ _
        · exact List.mem_cons_of_mem _ (ih false h')
      · rw [if_neg hb] at h
        exact List.mem_cons_of_mem _ (ih false h)

theorem mem_infix_joinSep {sep l : List Char} :
    ∀ ls : List (List Char), l ∈ ls → l <:+: joinSep sep ls := by
  intro ls
  induction ls with
  | nil => intro h; simp at h
  | cons x xs ih =>
    intro h
    rw [List.mem_cons] at h
    cases xs with
    | nil =>
      rcases h with rfl | h
      · exact List.infix_rfl
      · simp at h
    | cons y ys =>
      show l <:+: x ++ sep ++ joinSep sep (y :: ys)
      rcases h with rfl | h
      · exact infix_ext_right _ (infix_ext_right _ List.infix_rfl)
      · rw [List.append_assoc]
        exact infix_ext_left _ (infix_ext_left _ (ih h))

theorem keepLines_ok : ∀ (ls : List (List Char)) (b : Bool),
    chunksOk (keepLines ls b) = true ∧
      ((keepLines ls b).head? = some [] → b = true) := by
  intro ls
  induction ls with
  | nil => intro b; simp [keepLines, chunksOk]
  | cons x xs ih =>
    intro b
    rw [keepLines]
    by_cases hx : x ≠ []
    · rw [if_pos hx]
      obtain ⟨ih1, _⟩ := ih true
      refine ⟨?_, ?_⟩
      · cases hk : keepLines xs true with
        | nil => simp [chunksOk]
        | cons y ys =>
          rw [chunksOk]
          have hxe : x.isEmpty = false := by
            cases x
            · exact absurd rfl hx
            · rfl
          rw [hk] at ih1
          simp [hxe, ih1]
      · intro hh
        simp only [List.head?_cons, Option.some.injEq] at hh
        exact absurd hh hx
    · rw [if_neg hx]
      push_neg at hx
      by_cases hb : b
      · rw [if_pos hb]
        obtain ⟨ih1, ih2⟩ := ih false
        refine ⟨?_, fun _ => hb⟩
        cases hk : keepLines xs false with
        | nil => simp [chunksOk]
        | cons y ys =>
          rw [chunksOk]
          have hy : y.isEmpty = false := by
            cases y with
            | nil =>
              exfalso
              have : (keepLines xs false).head? = some [] := by rw [hk]; rfl
              exact absurd (ih2 this) (by simp)
            | cons _ _ => rfl
          rw [hk] at ih1
          simp [hy, ih1]
      · rw [if_neg hb]
        obtain ⟨ih1, ih2⟩ := ih false
        exact ⟨ih1, fun h => False.elim (by simpa using ih2 h)⟩

theorem joinSep_head {sep bb : List Char} (rest : List (List Char)) (hbb : bb ≠ []) :
    (joinSep sep (bb :: rest)).head? = bb.head? := by
  cases rest with
  | nil => rfl
  | cons y ys =>
    show ((bb ++ sep) ++ joinSep sep (y :: ys)).head? = bb.head?
    rw [List.append_assoc]
    cases bb with
    | nil => exact absurd rfl hbb
    | cons c cs => rfl

theorem joinSep_nl_clean : ∀ (ls : List (List Char)),
    (∀ l ∈ ls, '\n' ∉ l) → chunksOk ls = true →
      ¬ (['\n', '\n', '\n'] <:+: joinSep ['\n'] ls) ∧
        ¬ (['\n', '\n'] <+: joinSep ['\n'] ls) := by
  intro ls
  induction ls with
  | nil =>
    intro _ _
    constructor
    · intro h
      rw [show joinSep ['\n'] [] = [] from rfl, List.infix_nil] at h
      simp at h
    · intro h
      rw [show joinSep ['\n'] [] = [] from rfl, List.prefix_nil] at h
      simp at h
  | cons a tail ih =>
    intro hnl hok
    have ha : '\n' ∉ a := hnl a (List.mem_cons_self a tail)
    cases tail with
    | nil =>
      constructor
      · intro hinf
        exact ha (infix_subset hinf (by simp))
      · intro hpre
        exact ha (infix_subset (infix_of_pfx hpre) (by simp))
    | cons bb rest =>
      have hok' : chunksOk (bb :: rest) = true := by
        rw [chunksOk] at hok
        exact (Bool.and_eq_true_iff.mp hok).2
      have hadj : (!(a.isEmpty && bb.isEmpty)) = true := by
        rw [chunksOk] at hok
        exact (Bool.and_eq_true_iff.mp hok).1
      obtain ⟨ih1, ih2⟩ := ih (fun l hl => hnl l (List.mem_cons_of_mem a hl)) hok'
      have hJ : joinSep ['\n'] (a :: bb :: rest)
          = a ++ ('\n' :: joinSep ['\n'] (bb :: rest)) := by
        show (a ++ ['\n']) ++ joinSep ['\n'] (bb :: rest)
            = a ++ ('\n' :: joinSep ['\n'] (bb :: rest))
        rw [List.append_assoc]
        rfl
      have hbbhead : ∀ c, bb ≠ [] → (joinSep ['\n'] (bb :: rest)).head? = some c →
          c ≠ '\n' := by
        intro c hbb hc hceq
        subst hceq
        rw [joinSep_head rest hbb] at hc
        have hmem : '\n' ∈ bb := by
          cases bb with
          | nil => exact absurd rfl hbb
          | cons b bs =>
            simp only [List.head?_cons, Option.some.injEq] at hc
            rw [← hc]
            exact List.mem_cons_self b bs
        exact hnl bb (List.mem_cons_of_mem a (List.mem_cons_self bb rest)) hmem
      constructor
      · intro hinf
        rw [hJ] at hinf
        rcases infix_append_cases hinf with h1 | h2 | ⟨p, q, hpq, hpne, _, hpsfx, _⟩
        · exact ha (infix_subset h1 (by simp))
        · rcases List.infix_cons_iff.mp h2 with hpre | hinf'
          · obtain ⟨t, ht⟩ := hpre
            have ht' : '\n' :: '\n' :: '\n' :: t
                = '\n' :: joinSep ['\n'] (bb :: rest) := by simpa using ht
            injection ht' with _ ht2
            exact ih2 ⟨t, by rw [← ht2]; rfl⟩
          · exact ih1 hinf'
        · have hnlp : '\n' ∈ p := by
            cases p with
            | nil => exact absurd rfl hpne
            | cons pc pcs =>
              have hm : pc ∈ ['\n', '\n', '\n'] := by
                rw [hpq]
                exact List.mem_append_left _ (List.mem_cons_self pc pcs)
              have hpc : pc = '\n' := by simpa using hm
              rw [← hpc]
              exact List.mem_cons_self pc pcs
          obtain ⟨w, hw⟩ := hpsfx
          exact ha (hw ▸ List.mem_append_right w hnlp)
      · intro hpre
        rw [hJ] at hpre
        cases a with
        | nil =>
          have hbb : bb ≠ [] := by
            intro hbbe
            subst hbbe
            simp at hadj
          obtain ⟨t, ht⟩ := hpre
          have ht' : '\n' :: '\n' :: t = '\n' :: joinSep ['\n'] (bb :: rest) := by
            simpa using ht
          injection ht' with _ ht2
          have hhead : (joinSep ['\n'] (bb :: rest)).head? = some '\n' := by
            rw [← ht2]
            rfl
          exact hbbhead '\n' hbb hhead rfl
        | cons c cs =>
          obtain ⟨t, ht⟩ := hpre
          have ht' : '\n' :: '\n' :: t
              = c :: (cs ++ ('\n' :: joinSep ['\n'] (bb :: rest))) := by simpa using ht
          injection ht' with h1 _
          refine ha ?_
          rw [← h1]
          exact List.mem_cons_self '\n' cs

theorem join_map_infix_mono (f : CodeAtom → List Char) {xs ys : List CodeAtom}
    (h : xs <:+: ys) : (xs.map f).flatten <:+: (ys.map f).flatten := by
  obtain ⟨a, b, rfl⟩ := h
  exact ⟨(a.map f).flatten, (b.map f).flatten, by simp⟩

theorem cleanupMarkdown_clean (s : List Char) :
    ¬ (['\n', '\n', '\n'] <:+: cleanupMarkdown s) ∧
      (cleanupMarkdown s).head?.all (fun c => !c.isWhitespace) = true ∧
      (cleanupMarkdown s).getLast?.all (fun c => !c.isWhitespace) = true := by
  refine ⟨?_, ?_, ?_⟩
  · intro h
    unfold cleanupMarkdown at h
    have hnl : ∀ l ∈ keepLines ((splitNl s).map pyStrip) false, '\n' ∉ l := by
      intro l hl
      obtain ⟨l', hl'mem, rfl⟩ := List.mem_map.mp (keepLines_subset _ _ hl)
      exact no_nl_pyStrip (no_nl_of_mem_splitNl hl'mem)
    have hok := (keepLines_ok ((splitNl s).map pyStrip) false).1
    have hjoin := (joinSep_nl_clean _ hnl hok).1
    exact hjoin (h.trans (pyStrip_infix_self _))
  · unfold cleanupMarkdown
    cases hh : (pyStrip (joinSep ['\n']
        (keepLines ((splitNl s).map pyStrip) false))).head? with
    | none => simp [hh]
    | some c =>
      have hw := pyStrip_head hh
      simp [hh, Option.all, hw]
  · unfold cleanupMarkdown
    cases hh : (pyStrip (joinSep ['\n']
        (keepLines ((splitNl s).map pyStrip) false))).getLast? with
    | none => simp [hh]
    | some c =>
      have hw := pyStrip_last hh
      simp [hh, Option.all, hw]

/-- C7: for every (parsed) HTML document containing a pre/code block whose
content holds the HTML-escaped entity sequence `&lt;div&gt;`, the text returned
by `html_to_markdown` contains the literal unescaped form `<div>` inside the
output, never a double-escaped or re-escaped form.  The conversion engine is
modelled from spec section 4.4 (see `renderAtom`); the cleanup phase is the
embedding of the repository code. -/
theorem c7_code_block_entities_unescaped {doc : List MarkupBlock}
    {content : List CodeAtom} (hmem : MarkupBlock.preCode content ∈ doc)
    (hdiv : escDiv <:+: content) : divChars <:+: htmlToMarkdown doc := by
  have h1 : divChars <:+: renderBlock (MarkupBlock.preCode content) := by
    have h := join_map_infix_mono renderAtom hdiv
    rw [show ((escDiv.map renderAtom).flatten : List Char) = divChars from rfl] at h
    exact h
  have h2 : renderBlock (MarkupBlock.preCode content) <:+: handleDoc doc :=
    mem_infix_joinSep _ (List.mem_map_of_mem renderBlock hmem)
  have h3 : divChars <:+: handleDoc doc := h1.trans h2
  show divChars <:+: cleanupMarkdown (handleDoc doc)
  unfold cleanupMarkdown
  have hne : divChars ≠ [] := by simp [divChars]
  have hnlD : '\n' ∉ divChars := by decide
  have hws : ∀ c ∈ divChars, c.isWhitespace = false := by decide
  obtain ⟨l, hlmem, hl⟩ := infix_mem_splitNl hnlD h3
  have hstrip : divChars <:+: pyStrip l := infix_pyStrip hne hws hl
  have hmemmap : pyStrip l ∈ (splitNl (handleDoc doc)).map pyStrip :=
    List.mem_map_of_mem pyStrip hlmem
  have hstripne : pyStrip l ≠ [] := by
    intro hnil
    rw [hnil, List.infix_nil] at hstrip
    exact hne hstrip
  have hkept := mem_keepLines _ false hmemmap hstripne
  have hjoin : pyStrip l <:+:
      joinSep ['\n'] (keepLines ((splitNl (handleDoc doc)).map pyStrip) false) :=
    mem_infix_joinSep _ hkept
  exact infix_pyStrip hne hws (hstrip.trans hjoin)

/-- Witness for C7 at a concrete document. -/
theorem c7_witness : divChars <:+: htmlToMarkdown exDocC7 :=
  c7_code_block_entities_unescaped (by decide)
    ⟨[CodeAtom.lit 'x', CodeAtom.lit '='], [], rfl⟩

/-- C8: for every (parsed) HTML input, the text returned by `html_to_markdown`
is whitespace-normalized: it contains no run of two or more consecutive blank
lines (the string of three newlines never occurs in the output) and has no
leading or trailing blank lines (the output starts and ends with
non-whitespace characters when non-empty). -/
theorem c8_output_whitespace_normalized (doc : List MarkupBlock) :
    ¬ (['\n', '\n', '\n'] <:+: htmlToMarkdown doc) ∧
      (htmlToMarkdown doc).head?.all (fun c => !c.isWhitespace) = true ∧
      (htmlToMarkdown doc).getLast?.all (fun c => !c.isWhitespace) = true :=
  cleanupMarkdown_clean (handleDoc doc)

/-- Witness for C8 at a concrete document. -/
theorem c8_witness :
    ¬ (['\n', '\n', '\n'] <:+: htmlToMarkdown [MarkupBlock.para ['H', 'i']]) :=
  (c8_output_whitespace_normalized [MarkupBlock.para ['H', 'i']]).1

/-! ### Claims C1 and C2: the completion detectors -/

theorem drLoop_no_indicator (ind : Nat → Bool) (start timeout : Nat)
    (hInd : ∀ t, ind t = false) :
    ∀ (fuel elapsed : Nat), timeout ≤ elapsed + fuel → elapsed < timeout + 5 →
      ∃ e, drLoop ind start timeout elapsed = Sum.inr (start + e) ∧
        timeout ≤ e ∧ e < timeout + 5 := by
  intro fuel
  induction fuel with
  | zero =>
    intro elapsed h1 h2
    rw [drLoop, dif_neg (by omega : ¬ elapsed < timeout)]
    exact ⟨elapsed, rfl, by omega, h2⟩
  | succ n ih =>
    intro elapsed h1 h2
    by_cases he : elapsed < timeout
    · rw [drLoop, dif_pos he, hInd (start + elapsed)]
      simp only [Bool.false_eq_true, if_false]
      exact ih (elapsed + 5) (by omega) (by omega)
    · rw [drLoop, dif_neg he]
      exact ⟨elapsed, rfl, by omega, h2⟩

/-- C1: for every page on which no completion indicator selector ever becomes
visible and the content-length fallback condition never holds (the content
length never exceeds `RESEARCH_CONTENT_MIN_LENGTH`), `_wait_for_completion`
raises `PlayPiTimeoutError`, and it does so within the timeout budget plus one
poll interval (5 seconds): the raise time is `start + e` with
`timeout ≤ e < timeout + 5`, so it never loops or waits beyond that bound. -/
theorem c1_completion_wait_timeout_bound (ind : Nat → Bool) (clen : Nat → Nat)
    (start timeout : Nat) (hInd : ∀ t, ind t = false)
    (hLen : ∀ t, clen t ≤ RESEARCH_CONTENT_MIN_LENGTH) :
    ∃ e, waitForCompletion ind clen start timeout
        = WaitResult.timedOut (start + e) ∧ timeout ≤ e ∧ e < timeout + 5 := by
  obtain ⟨e, heq, h1, h2⟩ :=
    drLoop_no_indicator ind start timeout hInd timeout 0 (by omega) (by omega)
  refine ⟨e, ?_, h1, h2⟩
  unfold waitForCompletion
  rw [heq]
  show (if RESEARCH_CONTENT_MIN_LENGTH < clen (start + e) then
      WaitResult.completed (start + e + 5) else WaitResult.timedOut (start + e))
    = WaitResult.timedOut (start + e)
  rw [if_neg (by have := hLen (start + e); omega)]

/-- Witness for C1 at a concrete environment. -/
theorem c1_witness :
    ∃ e, waitForCompletion (fun _ => false) (fun _ => 0) 0 7
        = WaitResult.timedOut (0 + e) ∧ 7 ≤ e ∧ e < 7 + 5 :=
  c1_completion_wait_timeout_bound (fun _ => false) (fun _ => 0) 0 7
    (fun _ => rfl) (fun _ => Nat.zero_le _)

/-- Counterexample to C2 as stated: with no indicator selector ever visible
and the response text strictly growing over time (so no two reads — in
particular no two consecutive checks — ever observe identical text),
`_wait_for_completion` still declares completion, from a single content-length
measurement taken at loop exit. -/
theorem c2_counterexample :
    (∀ t₁ t₂ : Nat, t₁ ≠ t₂ → exContent t₁ ≠ exContent t₂) ∧
      waitForCompletion (fun _ => false) (fun t => (exContent t).length) 0 10
        = WaitResult.completed (10 + 5) := by
  constructor
  · intro t₁ t₂ hne hc
    apply hne
    have hlen := congrArg List.length hc
    simpa [exContent] using hlen
  · have s2 : drLoop (fun _ => false) 0 10 10 = Sum.inr (0 + 10) := by
      rw [drLoop, dif_neg (by omega : ¬ (10 : Nat) < 10)]
    have s1 : drLoop (fun _ => false) 0 10 5 = Sum.inr (0 + 10) := by
      rw [drLoop, dif_pos (by omega : (5 : Nat) < 10)]
      simp only [Bool.false_eq_true, if_false]
      exact s2
    have s0 : drLoop (fun _ => false) 0 10 0 = Sum.inr (0 + 10) := by
      rw [drLoop, dif_pos (by omega : (0 : Nat) < 10)]
      simp only [Bool.false_eq_true, if_false]
      exact s1
    unfold waitForCompletion
    rw [s0]
    show (if RESEARCH_CONTENT_MIN_LENGTH < (exContent (0 + 10)).length then
        WaitResult.completed (0 + 10 + 5) else WaitResult.timedOut (0 + 10))
      = WaitResult.completed (10 + 5)
    rw [if_pos (by
      unfold exContent RESEARCH_CONTENT_MIN_LENGTH
      rw [List.length_replicate]
      omega)]

/-- C2 amended: in `_wait_for_sources_button`, whenever completion is declared
from the content signal alone, the detector has observed the stripped response
text exceed the 50-character threshold and remain identical across the
2-second re-check delay — two reads of the same text 4 half-second units
apart.  (`_wait_for_completion`, by contrast, declares completion from a
single content-length measurement; see the counterexample.) -/
theorem c2_sources_stability_two_reads (ind : Nat → Bool)
    (content : Nat → Option (List Char)) (start timeout2 : Nat) :
    ∀ (elapsed t : Nat),
      srcLoop ind content start timeout2 elapsed
          = SourcesWaitOutcome.contentStable t →
      ∃ t₀ txt, content t₀ = some txt ∧ 50 < (pyStrip txt).length ∧
        content (t₀ + 4) = some txt ∧ t = t₀ + 4 := by
  have main : ∀ (fuel elapsed t : Nat), timeout2 ≤ elapsed + fuel →
      srcLoop ind content start timeout2 elapsed
          = SourcesWaitOutcome.contentStable t →
      ∃ t₀ txt, content t₀ = some txt ∧ 50 < (pyStrip txt).length ∧
        content (t₀ + 4) = some txt ∧ t = t₀ + 4 := by
    intro fuel
    induction fuel with
    | zero =>
      intro elapsed t h1 h
      rw [srcLoop, dif_neg (by omega : ¬ elapsed < timeout2)] at h
      exact SourcesWaitOutcome.noConfusion h
    | succ n ih =>
      intro elapsed t h1 h
      rw [srcLoop] at h
      split at h
      · split at h
        · exact SourcesWaitOutcome.noConfusion h
        · split at h
          · rename_i txt hc
            split at h
            · rename_i hlong
              split at h
              · rename_i txt2 hc2
                split at h
                · rename_i hteq
                  refine ⟨start + elapsed, txt, hc, hlong, ?_, ?_⟩
                  · rw [hc2, hteq]
                  · injection h with h2
                    exact h2.symm
                · exact ih (elapsed + 5) t (by omega) h
              · exact ih (elapsed + 5) t (by omega) h
            · exact ih (elapsed + 1) t (by omega) h
          · exact ih (elapsed + 1) t (by omega) h
      · exact SourcesWaitOutcome.noConfusion h
  intro elapsed t h
  exact main timeout2 elapsed t (by omega) h

/-- Witness for the amended C2 at a concrete environment where the content
check succeeds. -/
theorem c2_witness :
    ∃ t₀ txt,
      (fun _ : Nat => some (List.replicate 51 'a')) t₀ = some txt ∧
        50 < (pyStrip txt).length ∧
        (fun _ : Nat => some (List.replicate 51 'a')) (t₀ + 4) = some txt ∧
        (4 : Nat) = t₀ + 4 := by
  refine c2_sources_stability_two_reads (fun _ => false)
    (fun _ => some (List.replicate 51 'a')) 0 10 0 4 ?_
  rw [srcLoop, dif_pos (by omega : (0 : Nat) < 10)]
  simp only [Bool.false_eq_true, if_false]
  rw [if_pos (by decide : 50 < (pyStrip (List.replicate 51 'a')).length)]
  rw [if_pos trivial]

/-! ### Claim C3: the authentication deadline -/

theorem authLoop_never_chat (chat : Nat → Bool) (loadWait : Nat → Nat)
    (deadline : Nat) (hChat : ∀ t, chat t = false) :
    ∀ (fuel t : Nat), deadline + 1 ≤ t + fuel → t ≤ deadline + 1 →
      ∃ tErr, authLoop chat loadWait deadline t = Except.error tErr ∧
        deadline < tErr ∧ tErr ≤ deadline + 6 := by
  intro fuel
  induction fuel with
  | zero =>
    intro t h1 h2
    rw [authLoop, hChat]
    simp only [Bool.false_eq_true, if_false]
    rw [dif_pos (by omega : deadline < t + min (loadWait t) 5)]
    exact ⟨_, rfl, by omega, by have := Nat.min_le_right (loadWait t) 5; omega⟩
  | succ n ih =>
    intro t h1 h2
    rw [authLoop, hChat]
    simp only [Bool.false_eq_true, if_false]
    by_cases hd : deadline < t + min (loadWait t) 5
    · rw [dif_pos hd]
      exact ⟨_, rfl, hd, by have := Nat.min_le_right (loadWait t) 5; omega⟩
    · rw [dif_neg hd]
      exact ih (t + min (loadWait t) 5 + 1) (by omega) (by omega)

/-- C3 amended: for every overall timeout `T`, if the chat interface never
becomes resolvable, `ensure_authenticated` raises `AuthenticationError`
strictly after the login deadline `start + min T 60` and no later than that
deadline plus one poll iteration (a load-state probe of at most 5 seconds
plus the 1-second sleep, so 6 seconds); in particular with `T = 600` the
failure occurs by roughly 60 seconds (at most 66), not at 600. -/
theorem c3_auth_deadline_amended (chat : Nat → Bool) (loadWait : Nat → Nat)
    (timeout start : Nat) (hChat : ∀ t, chat t = false) :
    ∃ tErr, ensureAuthenticated false chat loadWait timeout start
        = Except.error tErr ∧
      start + min timeout 60 < tErr ∧ tErr ≤ start + min timeout 60 + 6 := by
  unfold ensureAuthenticated
  rw [if_neg (by simp)]
  exact authLoop_never_chat chat loadWait (start + min timeout 60) hChat
    (min timeout 60 + 1) start (by omega) (by omega)

theorem authLoop_zero_wait (deadline : Nat) :
    ∀ (fuel t : Nat), deadline + 1 ≤ t + fuel → t ≤ deadline + 1 →
      authLoop (fun _ => false) (fun _ => 0) deadline t
        = Except.error (deadline + 1) := by
  intro fuel
  induction fuel with
  | zero =>
    intro t h1 h2
    have ht : t = deadline + 1 := by omega
    subst ht
    rw [authLoop]
    simp only [Bool.false_eq_true, if_false, Nat.min_eq_left (Nat.zero_le 5),
      Nat.add_zero]
    rw [dif_pos (by omega : deadline < deadline + 1)]
  | succ n ih =>
    intro t h1 h2
    by_cases hd : t = deadline + 1
    · subst hd
      rw [authLoop]
      simp only [Bool.false_eq_true, if_false, Nat.min_eq_left (Nat.zero_le 5),
        Nat.add_zero]
      rw [dif_pos (by omega : deadline < deadline + 1)]
    · rw [authLoop]
      simp only [Bool.false_eq_true, if_false, Nat.min_eq_left (Nat.zero_le 5),
        Nat.add_zero]
      rw [dif_neg (by omega : ¬ deadline < t)]
      exact ih (t + 1) (by omega) (by omega)

/-- Counterexample to C3 as stated: with overall timeout `T = 600`, a chat
interface that never resolves and instantaneous load-state waits,
`ensure_authenticated` raises `AuthenticationError` at time 61, which is
strictly later than `min 600 60 = 60` seconds after the start — the deadline
test runs once per poll iteration, after the iteration's waiting, so the
raise always lands strictly past the deadline. -/
theorem c3_counterexample :
    ensureAuthenticated false (fun _ => false) (fun _ => 0) 600 0
        = Except.error 61 ∧ min 600 60 < 61 := by
  constructor
  · unfold ensureAuthenticated
    rw [if_neg (by simp)]
    have h := authLoop_zero_wait 60 61 0 (by omega) (by omega)
    simpa using h
  · norm_num

/-- Witness for the amended C3 at a concrete environment. -/
theorem c3_witness :
    ∃ tErr, ensureAuthenticated false (fun _ => false) (fun _ => 0) 600 0
        = Except.error tErr ∧
      0 + min 600 60 < tErr ∧ tErr ≤ 0 + min 600 60 + 6 :=
  c3_auth_deadline_amended (fun _ => false) (fun _ => 0) 600 0 (fun _ => rfl)

/-! ### Claims C4, C5 and C6: batch collection and prompt validation -/

theorem gatherRun_all_ok {n : Nat} (res : Fin n → Except GErr TaskOutcome)
    (hOk : ∀ i, ∃ v, res i = Except.ok v) :
    ∀ order : List (Fin n), gatherRun res order
      = Except.ok (List.ofFn fun i =>
          match res i with
          | Except.ok v => v
          | Except.error _ => default) := by
  intro order
  induction order with
  | nil => rfl
  | cons i rest ih =>
    obtain ⟨v, hv⟩ := hOk i
    rw [gatherRun, hv]
    exact ih

/-- C4: for every batch of requests passed to
`google_gemini_deep_research_multi`, when all tasks succeed the returned list
has the same length as the input list and the entry at position `i` is the
result of the request at position `i` of the input, regardless of the order
in which the individual tasks finish (any completion order `order` yields the
same list). -/
theorem c4_batch_preserves_input_order (fs : List Char → List Char)
    (research : List Char → Except RunErr (List Char)) (cfgs : List TaskConfig)
    (order : List (Fin cfgs.length))
    (hOk : ∀ i : Fin cfgs.length,
      ∃ v, runTask fs research (cfgs.get i) = Except.ok v) :
    ∃ l, deepResearchMulti fs research cfgs order = Except.ok l ∧
      l.length = cfgs.length ∧
      ∀ i : Fin cfgs.length,
        l[(i : Nat)]? = (runTask fs research (cfgs.get i)).toOption := by
  refine ⟨_, gatherRun_all_ok _ hOk order, by simp, ?_⟩
  intro i
  obtain ⟨v, hv⟩ := hOk i
  have hval : (List.ofFn fun j =>
      match runTask fs research (cfgs.get j) with
      | Except.ok v => v
      | Except.error _ => default)[(i : Nat)]?
      = some (match runTask fs research (cfgs.get i) with
        | Except.ok v => v
        | Except.error _ => default) := by simp
  rw [hval, hv]
  rfl

/-- Witness for C4 at a concrete batch where the completion order reverses
the input order. -/
theorem c4_witness :
    ∃ l, deepResearchMulti exFs exResearchOk exCfgs
        [⟨1, by decide⟩, ⟨0, by decide⟩] = Except.ok l ∧
      l.length = exCfgs.length ∧
      ∀ i : Fin exCfgs.length,
        l[(i : Nat)]? = (runTask exFs exResearchOk (exCfgs.get i)).toOption :=
  c4_batch_preserves_input_order exFs exResearchOk exCfgs _
    (fun i => ⟨TaskOutcome.text ['R'], by fin_cases i <;> rfl⟩)

theorem gatherRun_error_of_mem {n : Nat} (res : Fin n → Except GErr TaskOutcome)
    {i : Fin n} {e : GErr} (hi : res i = Except.error e) :
    ∀ order : List (Fin n), i ∈ order →
      ∃ e', gatherRun res order = Except.error e' := by
  intro order
  induction order with
  | nil => intro h; simp at h
  | cons j rest ih =>
    intro hmem
    rcases hr : res j with e' | v
    · exact ⟨e', by rw [gatherRun, hr]⟩
    · rcases List.mem_cons.mp hmem with rfl | hmem'
      · rw [hr] at hi
        exact Except.noConfusion hi
      · obtain ⟨e'', he⟩ := ih hmem'
        exact ⟨e'', by rw [gatherRun, hr]; exact he⟩

/-- Counterexample to C5 as stated: in a batch of two tasks where task 0
raises its per-task timeout and task 1 succeeds, the caller of
`google_gemini_deep_research_multi` does not receive a per-item outcome for
every request: the whole batch call raises the timeout error
(`asyncio.gather` with its default `return_exceptions=False`), and task 1's
result is not returned. -/
theorem c5_counterexample :
    runTask exFs exResearch
        { prompt := some ['b'], promptPath := none, outputPath := none }
      = Except.ok (TaskOutcome.text ['R']) ∧
    deepResearchMulti exFs exResearch exCfgs [⟨0, by decide⟩, ⟨1, by decide⟩]
      = Except.error (GErr.runFailure RunErr.timeoutErr) := by
  constructor
  · rfl
  · rfl

/-- C5 amended: in a batch run of `google_gemini_deep_research_multi`, one
task raising an exception makes the whole batch call raise: whenever some
task in the completion order fails, the caller receives an exception rather
than a list of per-item outcomes (the surviving results of sibling tasks are
not returned). -/
theorem c5_batch_fails_fast (fs : List Char → List Char)
    (research : List Char → Except RunErr (List Char)) (cfgs : List TaskConfig)
    (order : List (Fin cfgs.length)) (i : Fin cfgs.length) (e : GErr)
    (hmem : i ∈ order) (hi : runTask fs research (cfgs.get i) = Except.error e) :
    ∃ e', deepResearchMulti fs research cfgs order = Except.error e' :=
  gatherRun_error_of_mem _ hi order hmem

/-- Witness for the amended C5 at a concrete batch. -/
theorem c5_witness :
    ∃ e', deepResearchMulti exFs exResearch exCfgs
        [⟨0, by decide⟩, ⟨1, by decide⟩] = Except.error e' :=
  c5_batch_fails_fast exFs exResearch exCfgs _ ⟨0, by decide⟩
    (GErr.runFailure RunErr.timeoutErr) (List.mem_cons_self _ _) rfl

theorem composePrompt_valueError_iff (fs : List Char → List Char)
    (prompt promptPath : Option (List Char)) :
    composePrompt fs prompt promptPath = Except.error GErr.valueError
      ↔ pyTruthy prompt = false ∧ pyTruthy promptPath = false := by
  unfold composePrompt
  by_cases hp : pyTruthy promptPath
  · rw [if_pos hp]
    by_cases hq : pyTruthy prompt
    · rw [if_pos hq]
      simp [hp]
    · rw [if_neg hq]
      simp [hp]
  · rw [if_neg hp]
    by_cases hq : pyTruthy prompt
    · rw [if_pos hq]
      simp [hq]
    · rw [if_neg hq]
      simp [Bool.not_eq_true] at hp hq
      simp [hp, hq]

theorem finishTask_ne_valueError (r : Except RunErr (List Char))
    (o : Option (List Char)) : finishTask r o ≠ Except.error GErr.valueError := by
  rcases r with e | v
  · simp [finishTask]
  · by_cases ho : pyTruthy o = true
    · simp [finishTask, ho]
    · simp [finishTask, ho]

theorem full_valueError_iff (fs : List Char → List Char)
    (research : List Char → Except RunErr (List Char))
    (prompt promptPath outputPath : Option (List Char)) :
    googleGeminiDeepResearchFull fs research prompt promptPath outputPath
        = Except.error GErr.valueError
      ↔ composePrompt fs prompt promptPath = Except.error GErr.valueError := by
  unfold googleGeminiDeepResearchFull
  rcases hcp : composePrompt fs prompt promptPath with e | fp
  · constructor
    · intro h
      injection h with h2
      rw [h2]
    · intro h
      injection h with h2
      rw [h2]
  · constructor
    · intro h
      exact absurd h (finishTask_ne_valueError _ _)
    · intro h
      exact Except.noConfusion h

theorem runTask_valueError_iff (fs : List Char → List Char)
    (research : List Char → Except RunErr (List Char)) (cfg : TaskConfig) :
    runTask fs research cfg = Except.error GErr.valueError
      ↔ composePrompt fs cfg.prompt cfg.promptPath
          = Except.error GErr.valueError := by
  unfold runTask
  rcases hcp : composePrompt fs cfg.prompt cfg.promptPath with e | fp
  · constructor
    · intro h
      injection h with h2
      rw [h2]
    · intro h
      injection h with h2
      rw [h2]
  · constructor
    · intro h
      exact absurd h (finishTask_ne_valueError _ _)
    · intro h
      exact Except.noConfusion h

theorem gemi_valueError_iff (fsRead : List Char → List Char)
    (ask deepThink : List Char → Except RunErr (List Char))
    (filePromptArg promptArg : Option (List Char)) (deep : Bool)
    (outputFile : Option (List Char)) :
    gemiCommand fsRead ask deepThink filePromptArg promptArg deep outputFile
        = Except.error GErr.valueError
      ↔ pyTruthy filePromptArg = false ∧ pyTruthy promptArg = false := by
  unfold gemiCommand
  by_cases hf : pyTruthy filePromptArg = true
  · simp only [hf, if_true, List.cons_append, List.isEmpty_cons,
      Bool.false_eq_true, if_false]
    constructor
    · intro h
      exact absurd h (finishTask_ne_valueError _ _)
    · rintro ⟨h1, -⟩
      exact Bool.noConfusion h1
  · rw [Bool.not_eq_true] at hf
    by_cases hq : pyTruthy promptArg = true
    · simp only [hf, hq, Bool.false_eq_true, if_false, if_true,
        List.nil_append, List.isEmpty_cons]
      constructor
      · intro h
        exact absurd h (finishTask_ne_valueError _ _)
      · rintro ⟨-, h2⟩
        exact Bool.noConfusion h2
    · rw [Bool.not_eq_true] at hq
      simp only [hf, hq, Bool.false_eq_true, if_false, List.nil_append,
        List.isEmpty_nil, if_true]
      simp

/-- C6 corrected/amended: each entry point accepting an optional prompt and an
optional prompt source (`google_gemini_deep_research_full`, each task of
`google_gemini_deep_research_multi`, `gemi_command`) raises a ValueError-class
error exactly when neither argument is supplied with a non-empty value
(Python truthiness: `None` and the empty string both count as absent; for
`gemi_command` the source argument is the prompt-file path). -/
theorem c6_value_error_iff (fs fsRead : List Char → List Char)
    (research ask deepThink : List Char → Except RunErr (List Char))
    (prompt promptPath outputPath filePromptArg promptArg outputFile :
      Option (List Char)) (deep : Bool) :
    (googleGeminiDeepResearchFull fs research prompt promptPath outputPath
        = Except.error GErr.valueError
      ↔ pyTruthy prompt = false ∧ pyTruthy promptPath = false)
  ∧ (runTask fs research
        { prompt := prompt, promptPath := promptPath, outputPath := outputPath }
        = Except.error GErr.valueError
      ↔ pyTruthy prompt = false ∧ pyTruthy promptPath = false)
  ∧ (gemiCommand fsRead ask deepThink filePromptArg promptArg deep outputFile
        = Except.error GErr.valueError
      ↔ pyTruthy filePromptArg = false ∧ pyTruthy promptArg = false) :=
  ⟨(full_valueError_iff fs research prompt promptPath outputPath).trans
      (composePrompt_valueError_iff fs prompt promptPath),
    (runTask_valueError_iff fs research _).trans
      (composePrompt_valueError_iff fs prompt promptPath),
    gemi_valueError_iff fsRead ask deepThink filePromptArg promptArg deep
      outputFile⟩

/-- Counterexample to C6 as stated: supplying a prompt — the empty string,
`prompt = some ""` — with no prompt source still raises the ValueError-class
error in `google_gemini_deep_research_full`, because the code tests Python
truthiness rather than presence. -/
theorem c6_counterexample :
    googleGeminiDeepResearchFull exFs exResearchOk (some []) none none
        = Except.error GErr.valueError ∧
      (some ([] : List Char)).isSome = true := by
  constructor
  · rfl
  · rfl

/-- Witness for the amended C6 at a concrete input: with neither argument
supplied, `google_gemini_deep_research_full` raises the ValueError-class
error. -/
theorem c6_witness :
    pyTruthy (none : Option (List Char)) = false ∧
      pyTruthy (none : Option (List Char)) = false :=
  (c6_value_error_iff exFs exFs exResearchOk exResearchOk exResearchOk
      none none none none none none false).1.mp rfl

/-! ### Claim C9: the semaphore caps concurrency at 3 -/

theorem countP_running_set {ps : List TaskPhase} :
    ∀ (i : Nat) (hi : i < ps.length) (b : TaskPhase),
      (ps.set i b).countP (fun p => p == TaskPhase.running)
          + (if ps.get ⟨i, hi⟩ == TaskPhase.running then 1 else 0)
        = ps.countP (fun p => p == TaskPhase.running)
          + (if b == TaskPhase.running then 1 else 0) := by
  induction ps with
  | nil => intro i hi; simp at hi
  | cons x xs ih =>
    intro i hi b
    cases i with
    | zero =>
      simp only [List.set_cons_zero, List.countP_cons, List.get]
      omega
    | succ j =>
      simp only [List.set_cons_succ, List.countP_cons, List.get]
      have hj : j < xs.length := by simpa using hi
      have := ih j hj b
      omega

theorem multi_invariant {n : Nat} {s : MultiState} (h : ReachableMulti n s) :
    s.sem + countRunning s.phases = 3 := by
  induction h with
  | init =>
    have hz : countRunning (List.replicate n TaskPhase.pending) = 0 := by
      unfold countRunning
      rw [List.countP_eq_zero]
      intro a ha
      rw [List.eq_of_mem_replicate ha]
      decide
    simp [initMulti, hz]
  | step hr hstep ih =>
    cases hstep with
    | acquire i hi hp hs =>
      have hset := countP_running_set i hi TaskPhase.running
      rw [hp] at hset
      simp only [show (TaskPhase.pending == TaskPhase.running) = false from rfl,
        show (TaskPhase.running == TaskPhase.running) = true from rfl,
        Bool.false_eq_true, if_false, if_true] at hset
      simp only [countRunning] at ih ⊢
      omega
    | release i hi hp =>
      have hset := countP_running_set i hi TaskPhase.finished
      rw [hp] at hset
      simp only [show (TaskPhase.running == TaskPhase.running) = true from rfl,
        show (TaskPhase.finished == TaskPhase.running) = false from rfl,
        Bool.false_eq_true, if_false, if_true] at hset
      simp only [countRunning] at ih ⊢
      omega

/-- C9: in any state reachable during a batch run of
`google_gemini_deep_research_multi`, at most 3 tasks are simultaneously in
flight past the semaphore; moreover when 3 tasks hold it the semaphore
counter is 0, so a 4th task can start its page work only after one of the
running tasks has finished and released the semaphore. -/
theorem c9_semaphore_caps_three {n : Nat} {s : MultiState}
    (h : ReachableMulti n s) :
    countRunning s.phases ≤ 3 ∧ (countRunning s.phases = 3 → s.sem = 0) := by
  have hinv := multi_invariant h
  omega

/-- Witness for C9 at the initial state of a 5-task batch. -/
theorem c9_witness :
    countRunning (initMulti 5).phases ≤ 3 ∧
      (countRunning (initMulti 5).phases = 3 → (initMulti 5).sem = 0) :=
  c9_semaphore_caps_three (ReachableMulti.init : ReachableMulti 5 (initMulti 5))

/-! ### Claim C10: session lifecycle -/

/-- C10: `PlayPiSession.get_page` raises `SessionError` exactly when the
session holds no page: it fails on a freshly constructed session (before
`start()` has succeeded), after `close()` has run, and after a failed
`start()` (which closes the partial state); after a successful `start()` and
before `close()`, it returns the page without error. -/
theorem c10_get_page_characterization (s : SessionState)
    (ids : Nat × Nat × Nat × Nat) :
    (get_page s = Except.error () ↔ s.page = none)
  ∧ get_page sessionInit = Except.error ()
  ∧ get_page (sessionClose s) = Except.error ()
  ∧ (sessionStart sessionInit (some ids)).2 = true
  ∧ get_page (sessionStart sessionInit (some ids)).1 = Except.ok ids.2.2.2
  ∧ (sessionStart sessionInit none).2 = false
  ∧ get_page (sessionStart sessionInit none).1 = Except.error () := by
  refine ⟨?_, rfl, rfl, rfl, rfl, rfl, rfl⟩
  cases hp : s.page with
  | none => simp [get_page, hp]
  | some p => simp [get_page, hp]

/-- Witness for C10 at a concrete session state. -/
theorem c10_witness :
    get_page { pw := none, browser := none, ctx := none, page := none }
      = Except.error () :=
  (c10_get_page_characterization
    { pw := none, browser := none, ctx := none, page := none }
    (1, 2, 3, 4)).1.mpr rfl

end PlayPi
